import Mathlib

/-!
Verification of the client-side cursor layer of a Python MySQL driver
(`src/pymysql/cursors.py`).  The Python classes `Cursor`, `SSCursor` and
`DictCursorMixin` are shallowly embedded: each method becomes a Lean
function on an explicit state record, exceptions become `Except`/`Option`
error components, and the transport/connection collaborator (which lives
outside the verified file) is modelled from its interface contract where
needed.  Rows are a type parameter `α`.
-/

deriving instance DecidableEq for Except

/-- Error conditions raised by the cursor layer: `err.ProgrammingError`,
`IndexError`, `err.NotSupportedError`, and Python's `TypeError`. -/
inductive PErr where
  | programmingError
  | indexError
  | notSupportedError
  | typeError
deriving DecidableEq

/-- Python truthiness of the `_executed` attribute (a query string or
`None`): `None` and the empty string are falsy.  Used by
`Cursor._check_executed` (cursors.py lines 67-69). -/
def truthy : Option String → Bool
  | none => false
  | some s => !s.isEmpty

/-- State of a buffered `Cursor` (cursors.py lines 29-41).  The
`connection` reference is abstracted to a `Bool` (held / cleared), and the
fields not consulted by the fetch and scroll operations (`description`,
`_result`, `lastrowid`) are omitted. -/
structure Cursor (α : Type) where
  connection : Bool
  rownumber : Nat
  rowcount : Int
  arraysize : Nat
  _executed : Option String
  _rows : Option (List α)
deriving DecidableEq

/-- Embeds `Cursor.fetchone` (cursors.py lines 225-232): checks
`_executed`, returns `None` when `_rows` is `None` or the row pointer is
past the end, otherwise returns the row at the pointer and advances it. -/
def Cursor.fetchone {α : Type} (c : Cursor α) : Except PErr (Option α × Cursor α) :=
  if truthy c._executed = false then Except.error PErr.programmingError
  else
    match c._rows with
    | none => Except.ok (none, c)
    | some rows =>
        if c.rownumber ≥ rows.length then Except.ok (none, c)
        else Except.ok (rows.get? c.rownumber, {c with rownumber := c.rownumber + 1})

/-- Embeds `Cursor.fetchmany` (cursors.py lines 234-242).  Python's
`size or self.arraysize` treats both `None` and `0` as absent, which is
the `none` / `some 0` cases below.  The slice `_rows[rownumber:end]` is
`(rows.drop rownumber).take eff` and the pointer becomes
`min end (len rows)`. -/
def Cursor.fetchmany {α : Type} (c : Cursor α) (size : Option Nat) :
    Except PErr (Option (List α) × Cursor α) :=
  if truthy c._executed = false then Except.error PErr.programmingError
  else
    match c._rows with
    | none => Except.ok (none, c)
    | some rows =>
        let eff : Nat :=
          match size with
          | none => c.arraysize
          | some 0 => c.arraysize
          | some s => s
        Except.ok (some ((rows.drop c.rownumber).take eff),
                   {c with rownumber := min (c.rownumber + eff) rows.length})

/-- Embeds `Cursor.fetchall` (cursors.py lines 244-254): returns the slice
from the pointer (the whole list when the pointer is `0`, mirroring the
`if self.rownumber:` test) and moves the pointer to the end. -/
def Cursor.fetchall {α : Type} (c : Cursor α) : Except PErr (Option (List α) × Cursor α) :=
  if truthy c._executed = false then Except.error PErr.programmingError
  else
    match c._rows with
    | none => Except.ok (none, c)
    | some rows =>
        let result := if c.rownumber ≠ 0 then rows.drop c.rownumber else rows
        Except.ok (some result, {c with rownumber := rows.length})

/-- Embeds `Cursor.scroll` (cursors.py lines 256-267).  An exception is
returned together with the unchanged state (the Python method raises
before assigning `self.rownumber`).  `len(self._rows)` with `_rows = None`
would raise `TypeError` in Python. -/
def Cursor.scroll {α : Type} (c : Cursor α) (value : Int) (mode : String) :
    Option PErr × Cursor α :=
  if truthy c._executed = false then (some PErr.programmingError, c)
  else if mode = "relative" ∨ mode = "absolute" then
    let r : Int := if mode = "relative" then (c.rownumber : Int) + value else value
    match c._rows with
    | none => (some PErr.typeError, c)
    | some rows =>
        if 0 ≤ r ∧ r < (rows.length : Int) then (none, {c with rownumber := r.toNat})
        else (some PErr.indexError, c)
  else (some PErr.programmingError, c)

/-- C4: for a buffered cursor with a materialized row set and row count equal
to the number of materialized rows, `scroll` sets the row pointer to the
computed target (current+n for relative, n for absolute) iff the target lies
in `[0, row_count)`; otherwise it fails with the out-of-range condition
(`IndexError`) leaving the pointer unchanged, and an unrecognized mode fails
with `ProgrammingError`, also leaving the cursor unchanged. -/
theorem c4_scroll_spec {α : Type} (c : Cursor α) (rows : List α) (n : Int) (mode : String)
    (hex : truthy c._executed = true) (hrows : c._rows = some rows)
    (hrc : c.rowcount = (rows.length : Int)) :
    (mode = "relative" →
       ((0 ≤ (c.rownumber : Int) + n ∧ (c.rownumber : Int) + n < c.rowcount →
           Cursor.scroll c n mode = (none, {c with rownumber := ((c.rownumber : Int) + n).toNat}))
        ∧ (¬(0 ≤ (c.rownumber : Int) + n ∧ (c.rownumber : Int) + n < c.rowcount) →
           Cursor.scroll c n mode = (some PErr.indexError, c))))
    ∧ (mode = "absolute" →
       ((0 ≤ n ∧ n < c.rowcount →
           Cursor.scroll c n mode = (none, {c with rownumber := n.toNat}))
        ∧ (¬(0 ≤ n ∧ n < c.rowcount) →
           Cursor.scroll c n mode = (some PErr.indexError, c))))
    ∧ (mode ≠ "relative" → mode ≠ "absolute" →
        Cursor.scroll c n mode = (some PErr.programmingError, c)) := by
  refine ⟨?_, ?_, ?_⟩
  · rintro rfl
    constructor
    · intro hin
      rw [hrc] at hin
      simp only [Cursor.scroll, hex, Bool.true_eq_false, if_false, hrows]
      simp [hin]
    · intro hout
      rw [hrc] at hout
      simp only [Cursor.scroll, hex, Bool.true_eq_false, if_false, hrows]
      simp [hout]
  · rintro rfl
    constructor
    · intro hin
      rw [hrc] at hin
      simp only [Cursor.scroll, hex, Bool.true_eq_false, if_false, hrows]
      simp [hin]
    · intro hout
      rw [hrc] at hout
      simp only [Cursor.scroll, hex, Bool.true_eq_false, if_false, hrows]
      simp [hout]
  · intro h1 h2
    simp [Cursor.scroll, hex, h1, h2]

/-- Witness for C4: concrete in-range relative scroll. -/
theorem c4_scroll_spec_witness :
    (truthy (some "SELECT") = true
       ∧ ({ connection := true, rownumber := 0, rowcount := 2, arraysize := 1,
            _executed := some "SELECT", _rows := some [7, 8] } : Cursor Nat)._rows = some [7, 8])
    ∧ Cursor.scroll ({ connection := true, rownumber := 0, rowcount := 2, arraysize := 1,
                       _executed := some "SELECT", _rows := some [7, 8] } : Cursor Nat) 1 "relative"
        = (none, { connection := true, rownumber := 1, rowcount := 2, arraysize := 1,
                   _executed := some "SELECT", _rows := some [7, 8] }) := by
  refine ⟨⟨by decide, rfl⟩, ?_⟩
  have h := c4_scroll_spec
    ({ connection := true, rownumber := 0, rowcount := 2, arraysize := 1,
       _executed := some "SELECT", _rows := some [7, 8] } : Cursor Nat)
    [7, 8] 1 "relative" (by decide) rfl (by decide)
  have h2 := (h.1 rfl).1 (by constructor <;> decide)
  simpa using h2

/-- C5: for a buffered cursor immediately after a successful execute with a
materialized row set (pointer 0, row count = number of rows), `fetchall`
returns all rows in order and moves the pointer to the end; afterwards
`fetchone` returns `None` and `fetchall` returns no rows. -/
theorem c5_fetchall_spec {α : Type} (c : Cursor α) (rows : List α)
    (hex : truthy c._executed = true) (hrows : c._rows = some rows)
    (hrn : c.rownumber = 0) (hrc : c.rowcount = (rows.length : Int)) :
    Cursor.fetchall c = Except.ok (some rows, {c with rownumber := rows.length})
    ∧ ((rows.length : Int) = c.rowcount)
    ∧ Cursor.fetchone ({c with rownumber := rows.length} : Cursor α)
        = Except.ok (none, {c with rownumber := rows.length})
    ∧ Cursor.fetchall ({c with rownumber := rows.length} : Cursor α)
        = Except.ok (some ([] : List α), {c with rownumber := rows.length}) := by
  refine ⟨?_, hrc.symm, ?_, ?_⟩
  · simp [Cursor.fetchall, hex, hrows, hrn]
  · simp [Cursor.fetchone, hex, hrows]
  · rcases rows with _ | ⟨x, xs⟩
    · simp [Cursor.fetchall, hex, hrows]
    · simp [Cursor.fetchall, hex, hrows]

/-- Witness for C5: three materialized rows. -/
theorem c5_fetchall_spec_witness :
    (truthy (some "SELECT") = true)
    ∧ Cursor.fetchall ({ connection := true, rownumber := 0, rowcount := 3, arraysize := 1,
                         _executed := some "SELECT", _rows := some [10, 20, 30] } : Cursor Nat)
        = Except.ok (some [10, 20, 30],
            { connection := true, rownumber := 3, rowcount := 3, arraysize := 1,
              _executed := some "SELECT", _rows := some [10, 20, 30] }) := by
  refine ⟨by decide, ?_⟩
  have h := c5_fetchall_spec
    ({ connection := true, rownumber := 0, rowcount := 3, arraysize := 1,
       _executed := some "SELECT", _rows := some [10, 20, 30] } : Cursor Nat)
    [10, 20, 30] (by decide) rfl rfl (by decide)
  simpa using h.1

/-- State of a streaming `SSCursor` (cursors.py lines 338-428).  The bound
unbuffered result's not-yet-read wire rows are `pending`: each call of
`self._result._read_rowdata_packet_unbuffered()` yields the next one, or
`None` once exhausted.  That reader is not part of cursors.py and is
modelled from the spec (section 6: a `read_next_row()` on-demand reader in
streaming mode).  `SSCursor._conv_row` is the identity (line 354-355). -/
structure SSCursor (α : Type) where
  connection : Bool
  rownumber : Nat
  rowcount : Int
  arraysize : Nat
  _executed : Option String
  pending : List α
deriving DecidableEq

/-- Embeds `SSCursor.read_next` (cursors.py lines 381-383) over the
spec-modelled on-demand reader: one unread row is consumed, or `None` is
returned when the result is exhausted. -/
def SSCursor.read_next {α : Type} (s : SSCursor α) : Option α × SSCursor α :=
  match s.pending with
  | [] => (none, s)
  | x :: xs => (some x, {s with pending := xs})

/-- Embeds `SSCursor.fetchone` (cursors.py lines 385-392). -/
def SSCursor.fetchone {α : Type} (s : SSCursor α) : Except PErr (Option α × SSCursor α) :=
  if truthy s._executed = false then Except.error PErr.programmingError
  else
    match SSCursor.read_next s with
    | (none, s') => Except.ok (none, s')
    | (some r, s') => Except.ok (some r, {s' with rownumber := s'.rownumber + 1})

/-- The `for i in range_type(size)` loop body of `SSCursor.fetchmany`
(cursors.py lines 421-427): read up to `size` rows, stopping early at
exhaustion, incrementing the row pointer per row. -/
def SSCursor.fetchmanyGo {α : Type} : Nat → SSCursor α → List α × SSCursor α
  | 0, s => ([], s)
  | Nat.succ k, s =>
      match SSCursor.read_next s with
      | (none, s') => ([], s')
      | (some r, s') =>
          let t := SSCursor.fetchmanyGo k {s' with rownumber := s'.rownumber + 1}
          (r :: t.1, t.2)

/-- Embeds `SSCursor.fetchmany` (cursors.py lines 414-428).  Note that only
`size is None` defaults to `arraysize`; an explicit `0` stays `0`. -/
def SSCursor.fetchmany {α : Type} (s : SSCursor α) (size : Option Nat) :
    Except PErr (List α × SSCursor α) :=
  if truthy s._executed = false then Except.error PErr.programmingError
  else
    Except.ok (SSCursor.fetchmanyGo (match size with | none => s.arraysize | some k => k) s)

/-- The `for _ in range_type(...): self.read_next()` discard loops of
`SSCursor.scroll` (cursors.py lines 438-439 and 447-448). -/
def SSCursor.discard {α : Type} : Nat → SSCursor α → SSCursor α
  | 0, s => s
  | Nat.succ k, s => SSCursor.discard k (SSCursor.read_next s).2

/-- Embeds `SSCursor.scroll` (cursors.py lines 430-451): backward relative
or absolute scrolls raise `NotSupportedError` before any state change;
forward scrolls read and drop the intervening rows one at a time and then
set the pointer; an unknown mode raises `ProgrammingError`. -/
def SSCursor.scroll {α : Type} (s : SSCursor α) (value : Int) (mode : String) :
    Option PErr × SSCursor α :=
  if truthy s._executed = false then (some PErr.programmingError, s)
  else if mode = "relative" then
    if value < 0 then (some PErr.notSupportedError, s)
    else
      let s' := SSCursor.discard value.toNat s
      (none, {s' with rownumber := s'.rownumber + value.toNat})
  else if mode = "absolute" then
    if value < (s.rownumber : Int) then (some PErr.notSupportedError, s)
    else
      let s' := SSCursor.discard (value - (s.rownumber : Int)).toNat s
      (none, {s' with rownumber := value.toNat})
  else (some PErr.programmingError, s)

/-- The discard loop drops exactly the first `k` pending rows and changes
nothing else. -/
theorem SSCursor.discard_eq {α : Type} :
    ∀ (k : Nat) (s : SSCursor α), SSCursor.discard k s = {s with pending := s.pending.drop k} := by
  intro k
  induction k with
  | zero => intro s; rfl
  | succ k ih =>
      intro s
      rcases hs : s.pending with _ | ⟨x, xs⟩
      · simp [SSCursor.discard, SSCursor.read_next, hs, ih]
      · simp [SSCursor.discard, SSCursor.read_next, hs, ih]

/-- C6: on a streaming cursor after a successful execute, backward scrolls
(negative relative `n`, or an absolute target below the current pointer)
fail with `NotSupportedError` leaving the cursor unchanged; forward
relative/absolute scrolls read and discard exactly the intervening rows one
at a time (the pending wire rows lose exactly that many entries) and set the
pointer to the target; an unrecognized mode fails with
`ProgrammingError`. -/
theorem c6_ss_scroll_spec {α : Type} (s : SSCursor α) (n : Int) (mode : String)
    (hex : truthy s._executed = true) :
    (mode = "relative" →
       ((n < 0 → SSCursor.scroll s n mode = (some PErr.notSupportedError, s))
        ∧ (0 ≤ n → SSCursor.scroll s n mode =
            (none, {s with pending := s.pending.drop n.toNat,
                           rownumber := s.rownumber + n.toNat}))))
    ∧ (mode = "absolute" →
       ((n < (s.rownumber : Int) → SSCursor.scroll s n mode = (some PErr.notSupportedError, s))
        ∧ ((s.rownumber : Int) ≤ n → SSCursor.scroll s n mode =
            (none, {s with pending := s.pending.drop (n - (s.rownumber : Int)).toNat,
                           rownumber := n.toNat}))))
    ∧ (mode ≠ "relative" → mode ≠ "absolute" →
        SSCursor.scroll s n mode = (some PErr.programmingError, s)) := by
  refine ⟨?_, ?_, ?_⟩
  · rintro rfl
    constructor
    · intro hneg
      simp [SSCursor.scroll, hex, hneg]
    · intro hpos
      have hnot : ¬ n < 0 := not_lt.mpr hpos
      simp [SSCursor.scroll, hex, hnot, SSCursor.discard_eq]
  · rintro rfl
    constructor
    · intro hlt
      simp [SSCursor.scroll, hex, hlt]
    · intro hge
      have hnot : ¬ n < (s.rownumber : Int) := not_lt.mpr hge
      simp [SSCursor.scroll, hex, hnot, SSCursor.discard_eq]
  · intro h1 h2
    simp [SSCursor.scroll, hex, h1, h2]

/-- Witness for C6: concrete forward absolute scroll from pointer 1 to 3. -/
theorem c6_ss_scroll_spec_witness :
    (truthy (some "SELECT") = true)
    ∧ SSCursor.scroll ({ connection := true, rownumber := 1, rowcount := -1, arraysize := 1,
                         _executed := some "SELECT", pending := [20, 30, 40] } : SSCursor Nat)
        3 "absolute"
      = (none, { connection := true, rownumber := 3, rowcount := -1, arraysize := 1,
                 _executed := some "SELECT", pending := [40] }) := by
  refine ⟨by decide, ?_⟩
  have h := c6_ss_scroll_spec
    ({ connection := true, rownumber := 1, rowcount := -1, arraysize := 1,
       _executed := some "SELECT", pending := [20, 30, 40] } : SSCursor Nat)
    3 "absolute" (by decide)
  have h2 := (h.2.1 rfl).2 (by decide)
  simpa using h2

/-- C10: the two cursor flavors disagree on `fetchmany` with an explicit
size of `0`.  On a buffered cursor `size or self.arraysize` treats `0` as
absent, so `fetchmany 0` behaves exactly like `fetchmany` with no size and
returns up to `arraysize` rows; on a streaming cursor only `None` is
replaced by `arraysize`, so `fetchmany 0` reads nothing and returns `[]`. -/
theorem c10_fetchmany_zero (α : Type) :
    (∀ c : Cursor α, Cursor.fetchmany c (some 0) = Cursor.fetchmany c none)
    ∧ (∀ (c : Cursor α) (rows : List α), truthy c._executed = true → c._rows = some rows →
        Cursor.fetchmany c (some 0)
          = Except.ok (some ((rows.drop c.rownumber).take c.arraysize),
              {c with rownumber := min (c.rownumber + c.arraysize) rows.length}))
    ∧ (∀ s : SSCursor α, truthy s._executed = true →
        SSCursor.fetchmany s (some 0) = Except.ok ([], s)) := by
  refine ⟨fun c => rfl, ?_, ?_⟩
  · intro c rows hex hrows
    simp [Cursor.fetchmany, hex, hrows]
  · intro s hex
    simp [SSCursor.fetchmany, hex, SSCursor.fetchmanyGo]

/-- Witness for C10: with one pending/materialized row and `arraysize = 1`,
the buffered cursor's `fetchmany 0` returns that row while the streaming
cursor's returns the empty list. -/
theorem c10_fetchmany_zero_witness :
    (truthy (some "SELECT") = true)
    ∧ Cursor.fetchmany ({ connection := true, rownumber := 0, rowcount := 1, arraysize := 1,
                          _executed := some "SELECT", _rows := some [99] } : Cursor Nat) (some 0)
        = Except.ok (some [99],
            { connection := true, rownumber := 1, rowcount := 1, arraysize := 1,
              _executed := some "SELECT", _rows := some [99] })
    ∧ SSCursor.fetchmany ({ connection := true, rownumber := 0, rowcount := -1, arraysize := 1,
                            _executed := some "SELECT", pending := [99] } : SSCursor Nat) (some 0)
        = Except.ok ([], { connection := true, rownumber := 0, rowcount := -1, arraysize := 1,
                           _executed := some "SELECT", pending := [99] }) := by
  refine ⟨by decide, ?_, ?_⟩
  · have h := (c10_fetchmany_zero Nat).2.1
      ({ connection := true, rownumber := 0, rowcount := 1, arraysize := 1,
         _executed := some "SELECT", _rows := some [99] } : Cursor Nat) [99] (by decide) rfl
    simpa using h
  · exact (c10_fetchmany_zero Nat).2.2
      ({ connection := true, rownumber := 0, rowcount := -1, arraysize := 1,
         _executed := some "SELECT", pending := [99] } : SSCursor Nat) (by decide)

/-- Errors crossing the cursor/connection boundary during result chaining:
the cursor's own `ProgrammingError` (closed cursor) and transport failures
raised by the connection (spec section 7: pass-through errors). -/
inductive DErr where
  | programmingError
  | transport (code : Nat)
deriving DecidableEq

/-- A connection-owned result, modelled from the spec (section 6): identity
token `rid` (spec section 9 suggests a token in place of Python object
identity), `has_next` flag, affected-row count, and the unread streaming
wire data. -/
structure DResult where
  rid : Nat
  hasNext : Bool
  affected : Int
  wire : List Nat
deriving DecidableEq

/-- One pending step of the connection's multi-result chain: advancing
either yields the next result or raises a transport error.  Modelled from
the spec (sections 6 and 7). -/
inductive DStep where
  | nextRes (r : DResult)
  | fail (code : Nat)
deriving DecidableEq

/-- The connection as seen by the cursor: its current result and the
pending continuation of the multi-result chain.  Modelled from the spec
(section 6: `current_result()` / `advance_result`). -/
structure DConn where
  cur : Option DResult
  upcoming : List DStep
deriving DecidableEq

/-- The cursor state used by the close/nextset lifecycle (cursors.py):
whether the connection reference is still held, the identity token of the
bound result (`self._result`, `none` when `None`), and the summary fields
rebound by `_do_get_result`. -/
structure DCursor where
  hasConn : Bool
  resId : Option Nat
  rownumber : Nat
  rowcount : Int
deriving DecidableEq

/-- Observable events of a close operation, in order: draining the bound
result's wire data (`_finish_unbuffered_query`), advancing to a next
result set (`conn.next_result`), and clearing the connection reference. -/
inductive Ev where
  | finishWire
  | advance
  | clearConn
deriving DecidableEq

/-- Embeds `Cursor._nextset`/`nextset` (cursors.py lines 80-93): raises
`ProgrammingError` on a closed cursor (`_get_db`); returns `False`-ish
(`None`) when the cursor has no bound result, or its bound result is no
longer the connection's current result, or that result has no next set;
otherwise advances the connection (spec section 6 `advance_result`, which
may raise a transport error), rebinds via `_do_get_result`, and returns
`True`. -/
def DCursor.nextset (cu : DCursor) (co : DConn) : Except DErr (Bool × DCursor × DConn) :=
  if cu.hasConn = false then Except.error DErr.programmingError
  else
    match cu.resId, co.cur with
    | none, _ => Except.ok (false, cu, co)
    | some _, none => Except.ok (false, cu, co)
    | some r, some cr =>
      if r ≠ cr.rid then Except.ok (false, cu, co)
      else if cr.hasNext = false then Except.ok (false, cu, co)
      else
        match co.upcoming with
        | [] => Except.error (DErr.transport 0)
        | DStep.fail code :: _ => Except.error (DErr.transport code)
        | DStep.nextRes nr :: rest =>
            Except.ok (true,
              {cu with resId := some nr.rid, rownumber := 0, rowcount := nr.affected},
              {co with cur := some nr, upcoming := rest})


/-- The `while self.nextset(): pass` drain loop of `close` (cursors.py
lines 56-58 and 365-367), written with explicit fuel: each successful
`nextset` consumes one pending step of the chain (`nextset_true_shrinks`),
so fuel `co.upcoming.length + 1` — used by `DCursor.drain` — never runs
out, and the fuel-zero fallback is unreachable (`drain_fuel_irrelevant`).
Returns the propagated error, if any, the cursor and connection after the
loop, and one `advance` event per successful `nextset`. -/
def drainLoop : Nat → DCursor → DConn → Option DErr × DCursor × DConn × List Ev
  | 0, cu, co => (none, cu, co, [])
  | Nat.succ k, cu, co =>
      match DCursor.nextset cu co with
      | Except.error e => (some e, cu, co, [])
      | Except.ok (false, cu', co') => (none, cu', co', [])
      | Except.ok (true, cu', co') =>
          let t := drainLoop k cu' co'
          (t.1, t.2.1, t.2.2.1, Ev.advance :: t.2.2.2)

/-- The drain loop of `close` with its always-sufficient fuel. -/
def DCursor.drain (cu : DCursor) (co : DConn) : Option DErr × DCursor × DConn × List Ev :=
  drainLoop (co.upcoming.length + 1) cu co

/-- A `nextset` that returns false leaves cursor and connection unchanged. -/
theorem nextset_false_eq (cu : DCursor) (co : DConn) (cu' : DCursor) (co' : DConn)
    (h : DCursor.nextset cu co = Except.ok (false, cu', co')) : cu' = cu ∧ co' = co := by
  unfold DCursor.nextset at h
  split at h
  · simp at h
  · split at h
    · simp at h
      exact ⟨h.1.symm, h.2.symm⟩
    · simp at h
      exact ⟨h.1.symm, h.2.symm⟩
    · split at h
      · simp at h
        exact ⟨h.1.symm, h.2.symm⟩
      · split at h
        · simp at h
          exact ⟨h.1.symm, h.2.symm⟩
        · split at h
          · simp at h
          · simp at h
          · simp at h

/-- A successful advancing `nextset` consumes exactly one pending step and
preserves the connection-reference flag. -/
theorem nextset_true_shrinks (cu : DCursor) (co : DConn) (cu' : DCursor) (co' : DConn)
    (h : DCursor.nextset cu co = Except.ok (true, cu', co')) :
    cu'.hasConn = cu.hasConn ∧ co'.upcoming.length + 1 = co.upcoming.length := by
  unfold DCursor.nextset at h
  split at h
  · simp at h
  · split at h
    · simp at h
    · simp at h
    · split at h
      · simp at h
      · split at h
        · simp at h
        · split at h
          · simp at h
          · simp at h
          · simp only [Except.ok.injEq, Prod.mk.injEq] at h
            obtain ⟨-, hcu, hco⟩ := h
            subst hcu
            subst hco
            constructor
            · rfl
            · simp_all

/-- Any fuel beyond the pending-chain length gives the same drain result:
the fuel-zero fallback of `drainLoop` is unreachable from
`DCursor.drain`. -/
theorem drain_fuel_irrelevant :
    ∀ (f k : Nat) (cu : DCursor) (co : DConn),
      co.upcoming.length < f → co.upcoming.length < k →
      drainLoop f cu co = drainLoop k cu co := by
  intro f
  induction f with
  | zero =>
      intro k cu co hf hk
      exact absurd hf (Nat.not_lt_zero _)
  | succ f ih =>
      intro k cu co hf hk
      rcases k with _ | k
      · exact absurd hk (Nat.not_lt_zero _)
      · rcases hns : DCursor.nextset cu co with e | ⟨b, cu', co'⟩
        · simp [drainLoop, hns]
        · rcases b with _ | _
          · simp [drainLoop, hns]
          · have hsh := nextset_true_shrinks cu co cu' co' hns
            have hrec := ih k cu' co' (by omega) (by omega)
            simp [drainLoop, hns, hrec]

/-- After an error-free drain with sufficient fuel there is nothing left to
advance: `nextset` on the resulting state returns false and changes
nothing. -/
theorem drain_drained :
    ∀ (f : Nat) (cu : DCursor) (co : DConn) (cu' : DCursor) (co' : DConn) (evs : List Ev),
      co.upcoming.length < f → cu.hasConn = true →
      drainLoop f cu co = (none, cu', co', evs) →
      cu'.hasConn = true ∧ DCursor.nextset cu' co' = Except.ok (false, cu', co') := by
  intro f
  induction f with
  | zero =>
      intro cu co cu' co' evs hf
      exact absurd hf (Nat.not_lt_zero _)
  | succ f ih =>
      intro cu co cu' co' evs hf hconn h
      rcases hns : DCursor.nextset cu co with e | ⟨b, cuf, cof⟩
      · simp [drainLoop, hns] at h
      · rcases b with _ | _
        · simp only [drainLoop, hns, Prod.mk.injEq] at h
          obtain ⟨-, hcu, hco, -⟩ := h
          subst hcu
          subst hco
          obtain ⟨h1, h2⟩ := nextset_false_eq cu co cuf cof hns
          subst h1
          subst h2
          exact ⟨hconn, hns⟩
        · have hsh := nextset_true_shrinks cu co cuf cof hns
          simp only [drainLoop, hns, Prod.mk.injEq] at h
          rcases ht : drainLoop f cuf cof with ⟨e2, cu2, co2, evs2⟩
          rw [ht] at h
          simp only at h
          obtain ⟨he, hcu, hco, -⟩ := h
          subst hcu
          subst hco
          refine ih cuf cof _ _ evs2 (by omega) ?_ ?_
          · rw [hsh.1]
            exact hconn
          · rw [ht, he]

/-- Embeds `Cursor.close` (cursors.py lines 49-60): a second close on an
already-closed cursor returns immediately; otherwise the nextset drain loop
runs and, via `finally`, the connection reference is cleared whether or not
the loop raised — but the loop's exception is not swallowed: it is the
first component of the returned tuple. -/
def DCursor.close (cu : DCursor) (co : DConn) : Option DErr × DCursor × DConn × List Ev :=
  if cu.hasConn = false then (none, cu, co, [])
  else
    let t := DCursor.drain cu co
    (t.1, {t.2.1 with hasConn := false}, t.2.2.1, t.2.2.2 ++ [Ev.clearConn])

/-- Embeds `SSCursor.close` (cursors.py lines 357-369): like
`Cursor.close`, but when the cursor's bound result is still the
connection's current result, `self._result._finish_unbuffered_query()`
first drains that result's unread wire data (modelled from the spec,
section 6: `finish_unbuffered()` drains remaining wire data). -/
def DCursor.closeUnbuffered (cu : DCursor) (co : DConn) :
    Option DErr × DCursor × DConn × List Ev :=
  if cu.hasConn = false then (none, cu, co, [])
  else
    let p : DConn × List Ev :=
      match cu.resId, co.cur with
      | some r, some cr =>
          if r = cr.rid then ({co with cur := some {cr with wire := []}}, [Ev.finishWire])
          else (co, [])
      | _, _ => (co, [])
    let t := DCursor.drain cu p.1
    (t.1, {t.2.1 with hasConn := false}, t.2.2.1, p.2 ++ t.2.2.2 ++ [Ev.clearConn])

/-- Modelled from the spec: `run_statement` (section 6) establishes a new
current result; a connection whose current streaming result still has
unread wire data is desynchronized (section 5), so the statement cannot
behave correctly and fails. -/
def DConn.query (co : DConn) (res : DResult) : Except DErr DConn :=
  match co.cur with
  | some cr =>
      if cr.wire = [] then Except.ok {co with cur := some res}
      else Except.error (DErr.transport 1)
  | none => Except.ok {co with cur := some res}

/-- Embeds the summary-field binding of `Cursor._do_get_result` (cursors.py
lines 276-285): rebind the cursor to the connection's current result. -/
def DCursor.bindResult (cu : DCursor) (co : DConn) : DCursor :=
  match co.cur with
  | some rr => {cu with resId := some rr.rid, rownumber := 0, rowcount := rr.affected}
  | none => cu

/-- Embeds `SSCursor._query` (cursors.py lines 371-376) over the
spec-modelled connection: send the statement, then bind the new current
result. -/
def DCursor.queryBind (cu : DCursor) (co : DConn) (res : DResult) :
    Except DErr (DCursor × DConn) :=
  match DConn.query co res with
  | Except.error e => Except.error e
  | Except.ok co' => Except.ok (DCursor.bindResult cu co', co')

example :
    DCursor.drain { hasConn := true, resId := some 1, rownumber := 0, rowcount := 0 }
      { cur := some { rid := 1, hasNext := true, affected := 0, wire := [] },
        upcoming := [DStep.nextRes { rid := 2, hasNext := false, affected := 4, wire := [] }] }
    = (none, { hasConn := true, resId := some 2, rownumber := 0, rowcount := 4 },
       { cur := some { rid := 2, hasNext := false, affected := 4, wire := [] }, upcoming := [] },
       [Ev.advance]) := by decide

/-- C1 counterexample: a concrete cursor whose drain loop hits a transport
failure.  The claim states that `close()` swallows any transport error
raised during the drain and never propagates an error; the code's
`try/finally` clears the connection reference but has no `except`, so the
error comes back out of `close()`. -/
theorem c1_close_counterexample :
    DCursor.close { hasConn := true, resId := some 1, rownumber := 0, rowcount := 0 }
        { cur := some { rid := 1, hasNext := true, affected := 0, wire := [] },
          upcoming := [DStep.fail 7] }
      = (some (DErr.transport 7),
         { hasConn := false, resId := some 1, rownumber := 0, rowcount := 0 },
         { cur := some { rid := 1, hasNext := true, affected := 0, wire := [] },
           upcoming := [DStep.fail 7] },
         [Ev.clearConn])
    ∧ (DCursor.close { hasConn := true, resId := some 1, rownumber := 0, rowcount := 0 }
        { cur := some { rid := 1, hasNext := true, affected := 0, wire := [] },
          upcoming := [DStep.fail 7] }).1 ≠ none := by
  constructor
  · decide
  · decide

/-- C1 (amended): `close()` drains pending result sets with the nextset
loop and always clears the connection reference — via `finally`, even when
the drain raises — and a second `close()` on an already-closed cursor
returns without error; but a transport error raised during the drain
propagates out of `close()` instead of being swallowed, and when `close()`
returns without error the drain is complete: nothing is left to advance. -/
theorem c1_close_amended :
    (∀ (cu : DCursor) (co : DConn), ((DCursor.close cu co).2.1).hasConn = false)
    ∧ (∀ (cu : DCursor) (co : DConn), cu.hasConn = false →
        DCursor.close cu co = (none, cu, co, []))
    ∧ (∀ (cu : DCursor) (co : DConn) (e : DErr), cu.hasConn = true →
        (DCursor.drain cu co).1 = some e → (DCursor.close cu co).1 = some e)
    ∧ (∀ (cu : DCursor) (co : DConn), cu.hasConn = true →
        (DCursor.close cu co).1 = none →
        DCursor.nextset {(DCursor.close cu co).2.1 with hasConn := true}
            (DCursor.close cu co).2.2.1
          = Except.ok (false, {(DCursor.close cu co).2.1 with hasConn := true},
                       (DCursor.close cu co).2.2.1)) := by
  refine ⟨?_, ?_, ?_, ?_⟩
  · intro cu co
    by_cases hc : cu.hasConn = false
    · simp [DCursor.close, hc]
    · simp [DCursor.close, hc]
  · intro cu co hc
    simp [DCursor.close, hc]
  · intro cu co e hc he
    simp [DCursor.close, hc, he]
  · intro cu co hc he
    rcases ht : DCursor.drain cu co with ⟨e2, cu2, co2, evs2⟩
    have hclose : DCursor.close cu co
        = (e2, {cu2 with hasConn := false}, co2, evs2 ++ [Ev.clearConn]) := by
      simp [DCursor.close, hc, ht]
    rw [hclose] at he
    simp only at he
    subst he
    obtain ⟨h1, h2⟩ := drain_drained (co.upcoming.length + 1) cu co cu2 co2 evs2
      (Nat.lt_succ_self _) hc ht
    have hback : ({({cu2 with hasConn := false} : DCursor) with hasConn := true} : DCursor)
        = cu2 := by
      cases cu2
      simp_all
    rw [hclose]
    simp only
    rw [hback]
    exact h2

/-- Witness for C1 (amended): a live cursor with no bound result; close
drains nothing, reports no error, and the final state has nothing left to
advance. -/
theorem c1_close_amended_witness :
    (({ hasConn := true, resId := none, rownumber := 0, rowcount := -1 } : DCursor).hasConn = true
      ∧ (DCursor.close { hasConn := true, resId := none, rownumber := 0, rowcount := -1 }
           { cur := none, upcoming := [] }).1 = none)
    ∧ DCursor.nextset
        {(DCursor.close { hasConn := true, resId := none, rownumber := 0, rowcount := -1 }
            { cur := none, upcoming := [] }).2.1 with hasConn := true}
        (DCursor.close { hasConn := true, resId := none, rownumber := 0, rowcount := -1 }
            { cur := none, upcoming := [] }).2.2.1
      = Except.ok (false,
          {(DCursor.close { hasConn := true, resId := none, rownumber := 0, rowcount := -1 }
              { cur := none, upcoming := [] }).2.1 with hasConn := true},
          (DCursor.close { hasConn := true, resId := none, rownumber := 0, rowcount := -1 }
              { cur := none, upcoming := [] }).2.2.1) :=
  ⟨⟨rfl, rfl⟩, c1_close_amended.2.2.2 _ _ rfl rfl⟩

/-- C3: closing a streaming cursor whose bound result is still the
connection's current result first drains that result's unread wire data
(`finishWire` happens, before `clearConn`); when that result is the last of
its chain the closed connection ends with the drained (empty-wire) result
and a subsequent statement on the same connection succeeds, binding the
correct affected-row count; if the bound result is no longer current, no
drain of the stale result occurs and the connection is untouched. -/
theorem c3_ssclose_drain (cu : DCursor) (co : DConn) (r : Nat) (cr : DResult)
    (hconn : cu.hasConn = true) (hres : cu.resId = some r) (hcur : co.cur = some cr) :
    (cr.rid = r →
       ∃ evs, (DCursor.closeUnbuffered cu co).2.2.2
         = Ev.finishWire :: (evs ++ [Ev.clearConn]))
    ∧ (cr.rid = r → cr.hasNext = false →
       DCursor.closeUnbuffered cu co
         = (none, {cu with hasConn := false},
            {co with cur := some {cr with wire := []}}, [Ev.finishWire, Ev.clearConn]))
    ∧ (cr.rid = r → cr.hasNext = false →
       ∀ (cu2 : DCursor) (res : DResult),
         DCursor.queryBind cu2 {co with cur := some {cr with wire := []}} res
           = Except.ok ({cu2 with resId := some res.rid, rownumber := 0,
                                  rowcount := res.affected},
                        {co with cur := some res}))
    ∧ (cr.rid ≠ r →
       DCursor.closeUnbuffered cu co
         = (none, {cu with hasConn := false}, co, [Ev.clearConn])) := by
  refine ⟨?_, ?_, ?_, ?_⟩
  · intro hrid
    subst hrid
    rcases ht : DCursor.drain cu {co with cur := some {cr with wire := []}}
      with ⟨e2, cu2, co2, evs2⟩
    refine ⟨evs2, ?_⟩
    simp [DCursor.closeUnbuffered, hconn, hres, hcur, ht]
  · intro hrid hnext
    subst hrid
    have hns : DCursor.nextset cu {co with cur := some {cr with wire := []}}
        = Except.ok (false, cu, {co with cur := some {cr with wire := []}}) := by
      simp [DCursor.nextset, hconn, hres, hnext]
    simp [DCursor.closeUnbuffered, hconn, hres, hcur, DCursor.drain, drainLoop, hns]
  · intro hrid hnext cu2 res
    simp [DCursor.queryBind, DConn.query, DCursor.bindResult]
  · intro hrid
    have hr2 : ¬ r = cr.rid := fun hh => hrid hh.symm
    have hns : DCursor.nextset cu co = Except.ok (false, cu, co) := by
      simp [DCursor.nextset, hconn, hres, hcur, hr2]
    simp [DCursor.closeUnbuffered, hconn, hres, hcur, hr2, DCursor.drain, drainLoop, hns]

/-- Witness for C3: concrete current bound result with unread wire data;
closing drains it before clearing the connection reference. -/
theorem c3_ssclose_drain_witness :
    (({ hasConn := true, resId := some 5, rownumber := 2, rowcount := -1 } : DCursor).hasConn = true
      ∧ ({ rid := 5, hasNext := false, affected := -1, wire := [8, 9] } : DResult).rid = 5
      ∧ ({ rid := 5, hasNext := false, affected := -1, wire := [8, 9] } : DResult).hasNext = false)
    ∧ DCursor.closeUnbuffered
        { hasConn := true, resId := some 5, rownumber := 2, rowcount := -1 }
        { cur := some { rid := 5, hasNext := false, affected := -1, wire := [8, 9] },
          upcoming := [] }
      = (none, { hasConn := false, resId := some 5, rownumber := 2, rowcount := -1 },
         { cur := some { rid := 5, hasNext := false, affected := -1, wire := [] },
           upcoming := [] },
         [Ev.finishWire, Ev.clearConn]) := by
  refine ⟨⟨rfl, rfl, rfl⟩, ?_⟩
  have h := (c3_ssclose_drain
    { hasConn := true, resId := some 5, rownumber := 2, rowcount := -1 }
    { cur := some { rid := 5, hasNext := false, affected := -1, wire := [8, 9] }, upcoming := [] }
    5 { rid := 5, hasNext := false, affected := -1, wire := [8, 9] }
    rfl rfl rfl).2.1 rfl rfl
  simpa using h

/-- Observable steps of `callproc`: sending one statement via `_query`, or
one `nextset()` call advancing past an assignment's result set. -/
inductive CPEv where
  | stmt (q : String)
  | advanceResult
deriving DecidableEq

/-- The assignment statement `"SET @_%s_%d=%s" % (procname, index,
conn.escape(arg))` of `Cursor.callproc` (cursors.py line 214); the
connection's `escape` is a parameter of the model. -/
def setVarStmt {α : Type} (escape : α → String) (procname : String) (i : Nat) (a : α) : String :=
  "SET @_" ++ procname ++ "_" ++ toString i ++ "=" ++ escape a

/-- The final statement `"CALL %s(%s)"` of `Cursor.callproc` (cursors.py
lines 218-220), with the comma-joined session-variable names. -/
def callStmt (procname : String) (n : Nat) : String :=
  "CALL " ++ procname ++ "(" ++
    String.intercalate "," ((List.range n).map (fun i => "@_" ++ procname ++ "_" ++ toString i))
    ++ ")"

/-- Embeds `Cursor.callproc` (cursors.py lines 184-223): for each argument
in index order, send the session-variable assignment and call `nextset()`;
then send the single CALL statement; return the original arguments.  The
first component is the event trace. -/
def callproc {α : Type} (escape : α → String) (procname : String) (args : List α) :
    List CPEv × List α :=
  (((args.enum.map (fun ia => [CPEv.stmt (setVarStmt escape procname ia.1 ia.2),
                               CPEv.advanceResult])).flatten)
     ++ [CPEv.stmt (callStmt procname args.length)], args)

/-- The statements sent within an event trace, in order. -/
def sentOf (evs : List CPEv) : List String :=
  evs.filterMap (fun e => match e with | CPEv.stmt q => some q | CPEv.advanceResult => none)

/-- Each `(statement, advance)` pair contributes exactly its statement to
the sent list. -/
theorem sentOf_pairs {β : Type} (l : List β) (f : β → String) :
    sentOf ((l.map (fun b => [CPEv.stmt (f b), CPEv.advanceResult])).flatten) = l.map f := by
  induction l with
  | nil => rfl
  | cons b bs ih =>
      simp only [List.map_cons, List.flatten_cons, sentOf, List.filterMap_append] at ih ⊢
      rw [ih]
      rfl

/-- C7: `callproc(p, args)` sends exactly one `SET @_<p>_<i>=<escaped arg>`
statement per argument in index order — calling `nextset()` after each —
followed by the single `CALL p(@_<p>_0, ..., @_<p>_{N-1})` statement: `N+1`
statements in total (3 for two arguments), and it returns the original
argument sequence unchanged. -/
theorem c7_callproc_spec {α : Type} (escape : α → String) (procname : String) (args : List α) :
    (callproc escape procname args).2 = args
    ∧ sentOf (callproc escape procname args).1
        = (args.enum.map (fun ia => setVarStmt escape procname ia.1 ia.2))
          ++ [callStmt procname args.length]
    ∧ (sentOf (callproc escape procname args).1).length = args.length + 1
    ∧ (callproc escape procname args).1
        = ((args.enum.map (fun ia => [CPEv.stmt (setVarStmt escape procname ia.1 ia.2),
                                      CPEv.advanceResult])).flatten)
          ++ [CPEv.stmt (callStmt procname args.length)]
    ∧ (args.length = 2 → (sentOf (callproc escape procname args).1).length = 3) := by
  have hs : sentOf (callproc escape procname args).1
      = (args.enum.map (fun ia => setVarStmt escape procname ia.1 ia.2))
        ++ [callStmt procname args.length] := by
    simp only [callproc, sentOf, List.filterMap_append]
    have h1 := sentOf_pairs args.enum (fun ia => setVarStmt escape procname ia.1 ia.2)
    simp only [sentOf] at h1
    rw [h1]
    rfl
  refine ⟨rfl, hs, ?_, rfl, ?_⟩
  · rw [hs]
    simp [List.enum_length]
  · intro h2
    rw [hs]
    simp [List.enum_length, h2]

/-- Witness for C7: two arguments produce exactly the two assignments and
the CALL, and come back unchanged. -/
theorem c7_callproc_spec_witness :
    ([(1 : Nat), 2].length = 2)
    ∧ (callproc (fun n : Nat => toString n) "p" [1, 2]).2 = [1, 2]
    ∧ sentOf (callproc (fun n : Nat => toString n) "p" [1, 2]).1
        = ["SET @_p_0=1", "SET @_p_1=2", "CALL p(@_p_0,@_p_1)"]
    ∧ (sentOf (callproc (fun n : Nat => toString n) "p" [1, 2]).1).length = 3 := by
  have h := c7_callproc_spec (fun n : Nat => toString n) "p" [1, 2]
  exact ⟨rfl, h.1, by rw [h.2.1]; rfl, h.2.2.2.2 rfl⟩

/-- Column metadata as consumed by `DictCursorMixin._do_get_result`
(cursors.py lines 318-321): the field objects of the bound result expose a
column `name` and the source `table_name`. -/
structure MyField where
  name : String
  table_name : String
deriving DecidableEq

/-- The per-column disambiguation step of `DictCursorMixin._do_get_result`
(cursors.py lines 318-322): a column whose name already occurs among the
earlier entries of the name list is qualified as `<table>.<name>`. -/
def disambig (f : MyField) (seen : List String) : String :=
  if f.name ∈ seen then f.table_name ++ "." ++ f.name else f.name

/-- The name-list construction loop of `DictCursorMixin._do_get_result`
(cursors.py lines 316-323), with the accumulated list `fields` explicit. -/
def buildFieldsGo (acc : List String) : List MyField → List String
  | [] => acc
  | f :: fs => buildFieldsGo (acc ++ [disambig f acc]) fs

/-- The disambiguated name list built from the result's column metadata. -/
def buildFields (fs : List MyField) : List String :=
  buildFieldsGo [] fs

/-- Embeds `DictCursorMixin._conv_row` (cursors.py lines 328-331): a null
row stays null; otherwise the record is `dict(zip(self._fields, row))`,
modelled as the ordered key-value list produced by the zip. -/
def DictCursorMixin_conv_row {V : Type} (fields : List String) :
    Option (List V) → Option (List (String × V))
  | none => none
  | some row => some (fields.zip row)

/-- `buildFieldsGo` extends its accumulator on the right. -/
theorem buildFieldsGo_acc (fs : List MyField) :
    ∀ acc : List String, ∃ rest, buildFieldsGo acc fs = acc ++ rest := by
  induction fs with
  | nil => intro acc; exact ⟨[], by simp [buildFieldsGo]⟩
  | cons f fs ih =>
      intro acc
      obtain ⟨rest, hrest⟩ := ih (acc ++ [disambig f acc])
      exact ⟨disambig f acc :: rest, by simp [buildFieldsGo, hrest]⟩

/-- Length and positional characterization of the name-list loop: entry `i`
of the result is the `i`-th column's name, disambiguated against the part
of the list built before it. -/
theorem buildFieldsGo_spec (fs : List MyField) :
    ∀ acc : List String,
      (buildFieldsGo acc fs).length = acc.length + fs.length
      ∧ (buildFieldsGo acc fs).take acc.length = acc
      ∧ ∀ i : Nat, ∀ hi : i < fs.length,
          (buildFieldsGo acc fs).get? (acc.length + i)
            = some (disambig (fs.get ⟨i, hi⟩) ((buildFieldsGo acc fs).take (acc.length + i))) := by
  induction fs with
  | nil =>
      intro acc
      refine ⟨by simp [buildFieldsGo], by simp [buildFieldsGo], ?_⟩
      intro i hi
      exact absurd hi (Nat.not_lt_zero _)
  | cons f fs ih =>
      intro acc
      obtain ⟨hlen, htake, hget⟩ := ih (acc ++ [disambig f acc])
      have hstep : buildFieldsGo acc (f :: fs) = buildFieldsGo (acc ++ [disambig f acc]) fs := rfl
      refine ⟨?_, ?_, ?_⟩
      · rw [hstep, hlen]
        simp
        omega
      · rw [hstep]
        have := htake
        have hpre : (buildFieldsGo (acc ++ [disambig f acc]) fs).take acc.length
            = ((buildFieldsGo (acc ++ [disambig f acc]) fs).take (acc.length + 1)).take acc.length := by
          rw [List.take_take]
          simp [Nat.min_def]
        rw [hpre]
        simp only [List.length_append, List.length_singleton] at htake
        rw [htake]
        simp [List.take_append_of_le_length]
      · intro i hi
        rcases i with _ | j
        · rw [hstep]
          have h0 : (buildFieldsGo (acc ++ [disambig f acc]) fs).get? (acc.length + 0)
              = some (disambig f acc) := by
            obtain ⟨rest, hrest⟩ := buildFieldsGo_acc fs (acc ++ [disambig f acc])
            rw [hrest]
            rw [Nat.add_zero]
            rw [List.append_assoc]
            rw [List.get?_append_right (Nat.le_refl _)]
            simp
          rw [h0]
          have htk : (buildFieldsGo (acc ++ [disambig f acc]) fs).take (acc.length + 0) = acc := by
            rw [Nat.add_zero]
            have hpre : (buildFieldsGo (acc ++ [disambig f acc]) fs).take acc.length
                = ((buildFieldsGo (acc ++ [disambig f acc]) fs).take (acc.length + 1)).take acc.length := by
              rw [List.take_take]
              simp [Nat.min_def]
            rw [hpre]
            simp only [List.length_append, List.length_singleton] at htake
            rw [htake]
            simp [List.take_append_of_le_length]
          rw [htk]
          rfl
        · rw [hstep]
          have hj : j < fs.length := Nat.lt_of_succ_lt_succ hi
          have := hget j hj
          simp only [List.length_append, List.length_singleton] at this
          have harith : acc.length + (j + 1) = acc.length + 1 + j := by omega
          rw [harith]
          rw [this]
          rfl

/-- C8: the dict-mapping name list is built in column order, qualifying a
column whose name equals an earlier entry as `<table>.<name>` (so for
columns `[id, name, id]` from tables `t1, t1, t2` the second `id` becomes
`t2.id`); a null row stays null, and a non-null row converts to the record
zipping the disambiguated names with the row's values in column order, so
its keys are exactly the name list. -/
theorem c8_dict_mapping {V : Type} (flds : List MyField) (fields : List String) (row : List V) :
    (buildFields [{ name := "id", table_name := "t1" }, { name := "name", table_name := "t1" },
                  { name := "id", table_name := "t2" }] = ["id", "name", "t2.id"])
    ∧ ((buildFields flds).length = flds.length)
    ∧ (∀ i : Nat, ∀ hi : i < flds.length,
        (buildFields flds).get? i
          = some (disambig (flds.get ⟨i, hi⟩) ((buildFields flds).take i)))
    ∧ DictCursorMixin_conv_row (V := V) fields none = none
    ∧ (row.length = fields.length →
        DictCursorMixin_conv_row fields (some row) = some (fields.zip row)
        ∧ (fields.zip row).map Prod.fst = fields) := by
  obtain ⟨hlen, -, hget⟩ := buildFieldsGo_spec flds []
  refine ⟨by decide, ?_, ?_, rfl, ?_⟩
  · simpa using hlen
  · intro i hi
    have := hget i hi
    simpa using this
  · intro hrow
    refine ⟨rfl, ?_⟩
    exact List.map_fst_zip fields row (by omega)

/-- Witness for C8: the `[id, name, id]` example with a matching row. -/
theorem c8_dict_mapping_witness :
    (([(1 : Nat), 2, 3] : List Nat).length = (["id", "name", "t2.id"] : List String).length)
    ∧ buildFields [{ name := "id", table_name := "t1" }, { name := "name", table_name := "t1" },
                   { name := "id", table_name := "t2" }] = ["id", "name", "t2.id"]
    ∧ DictCursorMixin_conv_row ["id", "name", "t2.id"] (some [(1 : Nat), 2, 3])
        = some [("id", 1), ("name", 2), ("t2.id", 3)]
    ∧ ([("id", (1 : Nat)), ("name", 2), ("t2.id", 3)]).map Prod.fst = ["id", "name", "t2.id"] := by
  have h := c8_dict_mapping (V := Nat)
    [{ name := "id", table_name := "t1" }, { name := "name", table_name := "t1" },
     { name := "id", table_name := "t2" }]
    ["id", "name", "t2.id"] [1, 2, 3]
  obtain ⟨hc, -, -, -, hz⟩ := h
  obtain ⟨hconv, hkeys⟩ := hz rfl
  exact ⟨rfl, hc, by rw [hconv]; rfl, hkeys⟩

/-- Comma-joining of the rendered rows inside one multi-row INSERT: the
shape the `sql` buffer of `Cursor._do_execute_many` takes (cursors.py
lines 163-180), where every row after the first in a batch is preceded by
`b','`. -/
def commaJoin : List (List Char) → List Char
  | [] => []
  | [v] => v
  | v :: w :: r => v ++ ',' :: commaJoin (w :: r)

/-- The statement text executed for one batch: the captured prefix
(`query[:m.start(1)]`, everything through `VALUES `) followed by the
comma-separated rendered rows. -/
def stmtOf (pfx : List Char) (b : List (List Char)) : List Char :=
  pfx ++ commaJoin b

/-- Embeds the loop of `Cursor._do_execute_many` (cursors.py lines
163-180) at the level of the `sql` buffer: for each further rendered row
`v`, if `len(sql) + len(v) + 1` exceeds the ceiling the buffer is executed
and reset to `prefix + v`, otherwise `b',' + v` is appended; the final
buffer is always executed.  Returns the executed statements in order. -/
def emStmtsGo (M : Nat) (pfx : List Char) : List (List Char) → List Char → List (List Char)
  | [], sql => [sql]
  | v :: vs, sql =>
      if sql.length + v.length + 1 > M then sql :: emStmtsGo M pfx vs (pfx ++ v)
      else emStmtsGo M pfx vs (sql ++ ',' :: v)

/-- The statements `Cursor._do_execute_many` executes for the given
rendered rows (the first row seeds the buffer as `prefix + v`, cursors.py
lines 163-168). -/
def emStatements (M : Nat) (pfx : List Char) : List (List Char) → List (List Char)
  | [] => []
  | v :: vs => emStmtsGo M pfx vs (pfx ++ v)

/-- The same loop tracked as batches of rendered rows — the rows whose
renderings make up each executed statement; `curLen` is the running
`len(sql)` of the open batch. -/
def emGo (M P : Nat) : List (List Char) → List (List Char) → Nat → List (List (List Char))
  | [], cur, _ => [cur]
  | v :: vs, cur, curLen =>
      if curLen + v.length + 1 > M then cur :: emGo M P vs [v] (P + v.length)
      else emGo M P vs (cur ++ [v]) (curLen + 1 + v.length)

/-- The batches of rendered rows produced by `Cursor._do_execute_many`
with prefix length `P`. -/
def emBatchesP (M P : Nat) : List (List Char) → List (List (List Char))
  | [] => []
  | v :: vs => emGo M P vs [v] (P + v.length)

/-- Modelled from the spec: executing an INSERT statement whose VALUES
list carries `k` rendered rows reports `k` affected rows (the transport's
affected-row count for a bulk insert). -/
def insertAffected (b : List (List Char)) : Nat :=
  b.length

/-- The cursor state touched by `executemany`: the reported row count and
the log of statements sent to the transport. -/
structure EMCursor where
  rowcount : Int
  sent : List (List Char)
deriving DecidableEq

/-- Outcome of `RE_INSERT_VALUES.match(query)` (cursors.py lines 14-15 and
146-150): either the single-row INSERT template matched, with the captured
prefix `query[:m.start(1)]`, or it did not. -/
inductive EMMatch where
  | matched (pfx : List Char)
  | nomatch
deriving DecidableEq

/-- Embeds `Cursor.executemany` (cursors.py lines 137-156).  The regex
match outcome is the parameter `m`; `render` is `values % escape(arg)` for
one argument set (escaping is the connection's); on no match the fallback
issues one `execute(query, arg)` per argument set (statement text
`fallbackStmt`) and sums the per-execute affected counts (spec-modelled
`fallbackAffected`).  An empty argument sequence returns `None` at once,
sending nothing and changing nothing. -/
def executemany {α : Type} (m : EMMatch) (M : Nat) (render : α → List Char)
    (fallbackStmt : α → List Char) (fallbackAffected : α → Nat)
    (st : EMCursor) (args : List α) : Option Int × EMCursor :=
  if args.isEmpty then (none, st)
  else
    match m with
    | EMMatch.matched pfx =>
        let total : Int := (((emBatchesP M pfx.length (args.map render)).map insertAffected).sum : Nat)
        (some total, { rowcount := total,
                       sent := st.sent ++ emStatements M pfx (args.map render) })
    | EMMatch.nomatch =>
        let total : Int := (((args.map fallbackAffected).sum : Nat) : Int)
        (some total, { rowcount := total, sent := st.sent ++ args.map fallbackStmt })

/-- C9: `executemany` with an empty argument sequence is a no-op: it sends
no statement, leaves the whole cursor state (row count included)
unchanged, and returns without error. -/
theorem c9_executemany_empty {α : Type} (m : EMMatch) (M : Nat) (render : α → List Char)
    (fallbackStmt : α → List Char) (fallbackAffected : α → Nat) (st : EMCursor) :
    executemany m M render fallbackStmt fallbackAffected st ([] : List α) = (none, st)
    ∧ (executemany m M render fallbackStmt fallbackAffected st ([] : List α)).2.sent = st.sent
    ∧ (executemany m M render fallbackStmt fallbackAffected st ([] : List α)).2.rowcount
        = st.rowcount := by
  exact ⟨rfl, rfl, rfl⟩

/-- Appending one more rendered row to a nonempty batch appends a comma
and the row to its statement text. -/
theorem commaJoin_append_single (v : List Char) :
    ∀ b : List (List Char), b ≠ [] → commaJoin (b ++ [v]) = commaJoin b ++ ',' :: v := by
  intro b
  induction b with
  | nil => intro h; exact absurd rfl h
  | cons x xs ih =>
      intro _
      rcases xs with _ | ⟨y, ys⟩
      · rfl
      · have h2 := ih (by simp)
        simp only [List.cons_append, List.append_eq] at h2 ⊢
        simp only [commaJoin]
        rw [h2]
        simp

theorem stmtOf_append_single (pfx v : List Char) (b : List (List Char)) (hb : b ≠ []) :
    stmtOf pfx (b ++ [v]) = stmtOf pfx b ++ ',' :: v := by
  simp only [stmtOf, commaJoin_append_single v b hb, List.append_assoc]

theorem stmtOf_append_single_length (pfx v : List Char) (b : List (List Char)) (hb : b ≠ []) :
    (stmtOf pfx (b ++ [v])).length = (stmtOf pfx b).length + 1 + v.length := by
  rw [stmtOf_append_single pfx v b hb]
  simp
  omega

/-- Length of a batch's statement text: prefix, the rendered rows, and one
comma between each adjacent pair. -/
theorem commaJoin_length :
    ∀ b : List (List Char), b ≠ [] →
      (commaJoin b).length = (b.map List.length).sum + b.length - 1 := by
  intro b
  induction b with
  | nil => intro h; exact absurd rfl h
  | cons x xs ih =>
      intro _
      rcases xs with _ | ⟨y, ys⟩
      · simp [commaJoin]
      · have := ih (by simp)
        simp only [commaJoin, List.length_append, List.length_cons, this,
                   List.map_cons, List.sum_cons] at *
        omega

/-- A statement never gets shorter when its batch is extended on the
right. -/
theorem stmtOf_length_mono (pfx : List Char) :
    ∀ (c b : List (List Char)), b ≠ [] →
      (stmtOf pfx b).length ≤ (stmtOf pfx (b ++ c)).length := by
  intro c
  induction c with
  | nil => intro b _; simp
  | cons w c' ih =>
      intro b hb
      have h1 : (stmtOf pfx b).length ≤ (stmtOf pfx (b ++ [w])).length := by
        rw [stmtOf_append_single_length pfx w b hb]
        omega
      have h2 := ih (b ++ [w]) (by simp)
      calc (stmtOf pfx b).length ≤ (stmtOf pfx (b ++ [w])).length := h1
        _ ≤ (stmtOf pfx ((b ++ [w]) ++ c')).length := h2
        _ = (stmtOf pfx (b ++ w :: c')).length := by simp

/-- A statement never gets shorter when its batch is extended on the
left. -/
theorem stmtOf_length_suffix (pfx : List Char) (b c : List (List Char)) (hc : c ≠ []) :
    (stmtOf pfx c).length ≤ (stmtOf pfx (b ++ c)).length := by
  have hbc : (b ++ c) ≠ [] := by simp [hc]
  have h1 := commaJoin_length c hc
  have h2 := commaJoin_length (b ++ c) hbc
  have hsum : ((c.map List.length).sum : Nat) ≤ ((b ++ c).map List.length).sum := by
    simp
  have hlen : c.length ≤ (b ++ c).length := by simp
  have hc1 : 1 ≤ c.length := by
    rcases c with _ | _
    · exact absurd rfl hc
    · simp
  simp only [stmtOf, List.length_append]
  omega

/-- The statement-buffer loop and the batch bookkeeping agree: the
executed statements are exactly the batches rendered through `stmtOf`. -/
theorem emStmtsGo_eq_emGo (M : Nat) (pfx : List Char) :
    ∀ (vs : List (List Char)) (cur : List (List Char)), cur ≠ [] →
      emStmtsGo M pfx vs (stmtOf pfx cur)
        = (emGo M pfx.length vs cur ((stmtOf pfx cur).length)).map (stmtOf pfx) := by
  intro vs
  induction vs with
  | nil => intro cur _; rfl
  | cons v vs ih =>
      intro cur hcur
      simp only [emStmtsGo, emGo]
      by_cases hflush : (stmtOf pfx cur).length + v.length + 1 > M
      · rw [if_pos hflush, if_pos hflush]
        have hv : (pfx ++ v) = stmtOf pfx [v] := rfl
        have hvl : pfx.length + v.length = (stmtOf pfx [v]).length := by
          simp [stmtOf, commaJoin]
        rw [hv, hvl, ih [v] (by simp)]
        rfl
      · rw [if_neg hflush, if_neg hflush]
        have hstep : stmtOf pfx cur ++ ',' :: v = stmtOf pfx (cur ++ [v]) :=
          (stmtOf_append_single pfx v cur hcur).symm
        have hlen : (stmtOf pfx cur).length + 1 + v.length = (stmtOf pfx (cur ++ [v])).length :=
          (stmtOf_append_single_length pfx v cur hcur).symm
        rw [hstep, hlen, ih (cur ++ [v]) (by simp)]

theorem emStatements_eq (M : Nat) (pfx : List Char) (vs : List (List Char)) :
    emStatements M pfx vs = (emBatchesP M pfx.length vs).map (stmtOf pfx) := by
  rcases vs with _ | ⟨v, vs⟩
  · rfl
  · simp only [emStatements, emBatchesP]
    have hv : (pfx ++ v) = stmtOf pfx [v] := rfl
    have hvl : pfx.length + v.length = (stmtOf pfx [v]).length := by
      simp [stmtOf, commaJoin]
    rw [hv, hvl, emStmtsGo_eq_emGo M pfx vs [v] (by simp)]

/-- The batches concatenate back to the rendered rows, in order. -/
theorem emGo_flatten (M P : Nat) :
    ∀ (vs cur : List (List Char)) (curLen : Nat),
      (emGo M P vs cur curLen).flatten = cur ++ vs := by
  intro vs
  induction vs with
  | nil => intro cur curLen; simp [emGo]
  | cons v vs ih =>
      intro cur curLen
      simp only [emGo]
      by_cases hflush : curLen + v.length + 1 > M
      · rw [if_pos hflush]
        simp [List.flatten_cons, ih]
      · rw [if_neg hflush]
        simp [ih]

theorem emBatchesP_flatten (M P : Nat) (vs : List (List Char)) :
    (emBatchesP M P vs).flatten = vs := by
  rcases vs with _ | ⟨v, vs⟩
  · rfl
  · simp [emBatchesP, emGo_flatten]

/-- Every batch the loop produces is nonempty and its statement respects
the length ceiling, provided each row fits in a statement of its own. -/
theorem emGo_feasible (M : Nat) (pfx : List Char) :
    ∀ (vs cur : List (List Char)),
      cur ≠ [] → (stmtOf pfx cur).length ≤ M →
      (∀ v ∈ vs, pfx.length + v.length ≤ M) →
      ∀ b ∈ emGo M pfx.length vs cur ((stmtOf pfx cur).length),
        b ≠ [] ∧ (stmtOf pfx b).length ≤ M := by
  intro vs
  induction vs with
  | nil =>
      intro cur hcur hfeas _ b hb
      simp only [emGo, List.mem_singleton] at hb
      subst hb
      exact ⟨hcur, hfeas⟩
  | cons v vs ih =>
      intro cur hcur hfeas hfit b hb
      simp only [emGo] at hb
      by_cases hflush : (stmtOf pfx cur).length + v.length + 1 > M
      · rw [if_pos hflush] at hb
        rcases List.mem_cons.mp hb with hb1 | hb2
        · subst hb1
          exact ⟨hcur, hfeas⟩
        · have hvfit : (stmtOf pfx [v]).length ≤ M := by
            have := hfit v (by simp)
            simpa [stmtOf, commaJoin] using this
          have hvl : pfx.length + v.length = (stmtOf pfx [v]).length := by
            simp [stmtOf, commaJoin]
          rw [hvl] at hb2
          exact ih [v] (by simp) hvfit (fun w hw => hfit w (by simp [hw])) b hb2
      · rw [if_neg hflush] at hb
        have hlen : (stmtOf pfx cur).length + 1 + v.length = (stmtOf pfx (cur ++ [v])).length :=
          (stmtOf_append_single_length pfx v cur hcur).symm
        rw [hlen] at hb
        have hfeas' : (stmtOf pfx (cur ++ [v])).length ≤ M := by
          rw [← hlen]
          omega
        exact ih (cur ++ [v]) (by simp) hfeas' (fun w hw => hfit w (by simp [hw])) b hb

/-- While the open batch extended by the next rows of a feasible part
still fits, the loop keeps appending and never flushes: greedy consumes at
least every feasible prefix. -/
theorem emGo_no_flush (M : Nat) (pfx : List Char) :
    ∀ (q ys cur : List (List Char)), cur ≠ [] →
      (stmtOf pfx (cur ++ q)).length ≤ M →
      emGo M pfx.length (q ++ ys) cur ((stmtOf pfx cur).length)
        = emGo M pfx.length ys (cur ++ q) ((stmtOf pfx (cur ++ q)).length) := by
  intro q
  induction q with
  | nil => intro ys cur _ _; simp
  | cons v q' ih =>
      intro ys cur hcur hfeas
      have hsingle : (stmtOf pfx (cur ++ [v])).length ≤ (stmtOf pfx (cur ++ v :: q')).length := by
        have := stmtOf_length_mono pfx q' (cur ++ [v]) (by simp)
        simpa using this
      have hnoflush : ¬ ((stmtOf pfx cur).length + v.length + 1 > M) := by
        have heq := stmtOf_append_single_length pfx v cur hcur
        omega
      simp only [List.cons_append, emGo]
      rw [if_neg hnoflush]
      have hlen : (stmtOf pfx cur).length + 1 + v.length = (stmtOf pfx (cur ++ [v])).length :=
        (stmtOf_append_single_length pfx v cur hcur).symm
      rw [hlen]
      have := ih ys (cur ++ [v]) (by simp) (by simpa using hfeas)
      simpa using this

/-- The loop's first batch extends the open batch by some prefix of the
remaining rows, and the rest restarts cleanly on what is left. -/
theorem emGo_split (M P : Nat) :
    ∀ (vs cur : List (List Char)) (curLen : Nat),
      ∃ d, d ≤ vs.length ∧
        emGo M P vs cur curLen = (cur ++ vs.take d) :: emBatchesP M P (vs.drop d) := by
  intro vs
  induction vs with
  | nil => intro cur curLen; exact ⟨0, by simp [emGo, emBatchesP]⟩
  | cons v vs ih =>
      intro cur curLen
      by_cases hflush : curLen + v.length + 1 > M
      · refine ⟨0, by simp, ?_⟩
        simp only [emGo, if_pos hflush]
        simp [emBatchesP]
      · obtain ⟨d, hd, hrec⟩ := ih (cur ++ [v]) (curLen + 1 + v.length)
        refine ⟨d + 1, by simp; omega, ?_⟩
        simp only [emGo, if_neg hflush]
        rw [hrec]
        simp

/-- The batches of an order-preserving batching: each nonempty, each
statement within the ceiling. -/
def GoodParts (M : Nat) (pfx : List Char) (Q : List (List (List Char))) : Prop :=
  ∀ b ∈ Q, b ≠ [] ∧ (stmtOf pfx b).length ≤ M

/-- Dropping a prefix of the rows from a feasible batching leaves a
feasible batching of the remaining rows with no more parts. -/
theorem goodParts_drop (M : Nat) (pfx : List Char) :
    ∀ (Q : List (List (List Char))), GoodParts M pfx Q → ∀ d : Nat,
      ∃ Q', GoodParts M pfx Q' ∧ Q'.flatten = Q.flatten.drop d ∧ Q'.length ≤ Q.length := by
  intro Q
  induction Q with
  | nil => intro _ d; exact ⟨[], by intro b hb; simp at hb, by simp, by simp⟩
  | cons q Q' ih =>
      intro hQ d
      have hq := hQ q (by simp)
      have hQ' : GoodParts M pfx Q' := fun b hb => hQ b (by simp [hb])
      by_cases hd : d ≤ q.length
      · rcases Nat.eq_or_lt_of_le hd with heq | hlt
        · obtain ⟨Q'', hg, hf, hl⟩ := ih hQ' 0
          refine ⟨Q'', hg, ?_, by simpa using Nat.le_succ_of_le hl⟩
          rw [hf]
          simp only [List.flatten_cons, List.drop_append_of_le_length hd]
          rw [heq]
          simp
        · refine ⟨q.drop d :: Q', ?_, ?_, by simp⟩
          · intro b hb
            rcases List.mem_cons.mp hb with hb1 | hb2
            · subst hb1
              refine ⟨?_, ?_⟩
              · intro hnil
                have := List.length_drop d q ▸ congrArg List.length hnil
                simp at this
                omega
              · have hsplit : q.take d ++ q.drop d = q := List.take_append_drop d q
                have := stmtOf_length_suffix pfx (q.take d) (q.drop d)
                  (by intro hnil
                      have := List.length_drop d q ▸ congrArg List.length hnil
                      simp at this
                      omega)
                rw [hsplit] at this
                exact le_trans this hq.2
            · exact hQ' b hb2
          · simp only [List.flatten_cons, List.drop_append_of_le_length hd]
      · push_neg at hd
        obtain ⟨Q'', hg, hf, hl⟩ := ih hQ' (d - q.length)
        refine ⟨Q'', hg, ?_, by simpa using Nat.le_succ_of_le hl⟩
        have hstep : List.drop d (q ++ Q'.flatten) = List.drop (d - q.length) Q'.flatten := by
          conv_lhs => rw [show d = q.length + (d - q.length) by omega]
          rw [List.drop_append]
        rw [hf]
        simp only [List.flatten_cons]
        rw [hstep]

/-- Greedy minimality: no feasible order-preserving batching of the rows
uses fewer statements than the loop of `_do_execute_many` produces. -/
theorem emBatchesP_min_aux :
    ∀ (n M : Nat) (pfx : List Char) (vs : List (List Char)),
      vs.length ≤ n → vs ≠ [] →
      (∀ v ∈ vs, pfx.length + v.length ≤ M) →
      ∀ Q, GoodParts M pfx Q → Q.flatten = vs →
      (emBatchesP M pfx.length vs).length ≤ Q.length := by
  intro n
  induction n with
  | zero =>
      intro M pfx vs hlen hne hfit Q hQ hflat
      have : vs = [] := List.eq_nil_of_length_eq_zero (Nat.le_zero.mp hlen)
      exact absurd this hne
  | succ n ih =>
      intro M pfx vs hlen hne hfit Q hQ hflat
      rcases Q with _ | ⟨q, Q'⟩
      · rw [List.flatten_nil] at hflat
        exact absurd hflat.symm hne
      · have hq := hQ q (by simp)
        have hQ' : GoodParts M pfx Q' := fun b hb => hQ b (by simp [hb])
        rcases q with _ | ⟨v, q0⟩
        · exact absurd rfl hq.1
        · have hvs : vs = (v :: q0) ++ Q'.flatten := by
            rw [← hflat]
            simp
          subst hvs
          have hvl : pfx.length + v.length = (stmtOf pfx [v]).length := by
            simp [stmtOf, commaJoin]
          have hfeasq : (stmtOf pfx ([v] ++ q0)).length ≤ M := by
            simpa using hq.2
          have h2 := emGo_no_flush M pfx q0 Q'.flatten [v] (by simp) hfeasq
          obtain ⟨d, hd, h3⟩ :=
            emGo_split M pfx.length Q'.flatten ([v] ++ q0) ((stmtOf pfx ([v] ++ q0)).length)
          have hbat : emBatchesP M pfx.length ((v :: q0) ++ Q'.flatten)
              = (([v] ++ q0) ++ Q'.flatten.take d) :: emBatchesP M pfx.length (Q'.flatten.drop d) := by
            rw [List.cons_append]
            show emGo M pfx.length (q0 ++ Q'.flatten) [v] (pfx.length + v.length) = _
            rw [hvl, h2, h3]
          by_cases hdd : Q'.flatten.drop d = []
          · rw [hbat, hdd]
            simp [emBatchesP]
          · obtain ⟨Q'', hg, hf, hl⟩ := goodParts_drop M pfx Q' hQ' d
            have hlen' : (Q'.flatten.drop d).length ≤ n := by
              have hlvs : ((v :: q0) ++ Q'.flatten).length ≤ n + 1 := hlen
              have h4 : (Q'.flatten.drop d).length ≤ Q'.flatten.length := by
                simp
              simp only [List.length_append, List.length_cons] at hlvs
              omega
            have hfit' : ∀ w ∈ Q'.flatten.drop d, pfx.length + w.length ≤ M := by
              intro w hw
              exact hfit w (List.mem_append_right _ (List.mem_of_mem_drop hw))
            have hrec := ih M pfx (Q'.flatten.drop d) hlen' hdd hfit' Q'' hg hf
            rw [hbat]
            simp only [List.length_cons]
            omega

/-- Sum of batch sizes is the number of rows batched. -/
theorem sum_insertAffected (L : List (List (List Char))) :
    (L.map insertAffected).sum = L.flatten.length := by
  induction L with
  | nil => rfl
  | cons b L ih => simp [insertAffected, ih]

/-- One single-row INSERT per argument set affects one row each. -/
theorem sum_single_insertAffected (l : List (List Char)) :
    (l.map (fun v => insertAffected [v])).sum = l.length := by
  induction l with
  | nil => rfl
  | cons v l ih =>
      simp [insertAffected, ih]
      omega

/-- C2: for a matched single-row INSERT template (captured prefix `pfx`,
rendered argument rows `vs`, length ceiling `M`) with a non-empty argument
sequence whose rows each fit in a statement of their own, `executemany`
sends exactly the statements rendered from the greedy batches; the batches
partition the rows in order and every statement respects the ceiling; the
reported total equals the total of issuing one single-row INSERT per
argument set (spec-modelled: a k-row INSERT affects k rows); and the
number of statements sent is the minimum over all order-preserving
batchings whose rendered statements respect the ceiling. -/
theorem c2_executemany_batching (pfx : List Char) (vs : List (List Char)) (M : Nat)
    (hne : vs ≠ []) (hfit : ∀ v ∈ vs, pfx.length + v.length ≤ M) :
    emStatements M pfx vs = (emBatchesP M pfx.length vs).map (stmtOf pfx)
    ∧ (emBatchesP M pfx.length vs).flatten = vs
    ∧ GoodParts M pfx (emBatchesP M pfx.length vs)
    ∧ ((emBatchesP M pfx.length vs).map insertAffected).sum
        = (vs.map (fun v => insertAffected [v])).sum
    ∧ (∀ Q, GoodParts M pfx Q → Q.flatten = vs →
        (emBatchesP M pfx.length vs).length ≤ Q.length)
    ∧ (∀ st : EMCursor,
        executemany (EMMatch.matched pfx) M (fun v : List Char => v) (fun v => v)
            (fun _ => 1) st vs
          = (some ((((emBatchesP M pfx.length vs).map insertAffected).sum : Nat) : Int),
             { rowcount := ((((emBatchesP M pfx.length vs).map insertAffected).sum : Nat) : Int),
               sent := st.sent ++ emStatements M pfx vs })) := by
  refine ⟨emStatements_eq M pfx vs, emBatchesP_flatten M pfx.length vs, ?_, ?_, ?_, ?_⟩
  · rcases vs with _ | ⟨v, vs0⟩
    · exact absurd rfl hne
    · have hvl : pfx.length + v.length = (stmtOf pfx [v]).length := by
        simp [stmtOf, commaJoin]
      have hvfit : (stmtOf pfx [v]).length ≤ M := by
        have := hfit v (by simp)
        omega
      intro b hb
      refine emGo_feasible M pfx vs0 [v] (by simp) hvfit
        (fun w hw => hfit w (by simp [hw])) b ?_
      rw [← hvl]
      exact hb
  · rw [sum_insertAffected, sum_single_insertAffected, emBatchesP_flatten]
  · exact fun Q hQ hflat =>
      emBatchesP_min_aux vs.length M pfx vs (Nat.le_refl _) hne hfit Q hQ hflat
  · intro st
    have hem : vs.isEmpty = false := by
      rcases vs with _ | _
      · exact absurd rfl hne
      · rfl
    simp [executemany, hem, List.map_id']

/-- Witness for C2: the spec's example `INSERT INTO t (a) VALUES (%s)`
with three argument sets and a ceiling of 28 bytes that fits exactly one
rendered row per statement: three statements, total 3. -/
theorem c2_executemany_batching_witness :
    (("(1)".data :: "(2)".data :: "(3)".data :: []) ≠ []
      ∧ ∀ v ∈ ("(1)".data :: "(2)".data :: "(3)".data :: []),
          "INSERT INTO t (a) VALUES ".data.length + v.length ≤ 28)
    ∧ ((emBatchesP 28 "INSERT INTO t (a) VALUES ".data.length
          ("(1)".data :: "(2)".data :: "(3)".data :: [])).map insertAffected).sum
        = (("(1)".data :: "(2)".data :: "(3)".data :: []).map (fun v => insertAffected [v])).sum
    ∧ (emStatements 28 "INSERT INTO t (a) VALUES ".data
          ("(1)".data :: "(2)".data :: "(3)".data :: [])).length = 3
    ∧ ((emBatchesP 28 "INSERT INTO t (a) VALUES ".data.length
          ("(1)".data :: "(2)".data :: "(3)".data :: [])).map insertAffected).sum = 3 := by
  refine ⟨⟨by decide, by decide⟩, ?_, by decide, by decide⟩
  exact (c2_executemany_batching "INSERT INTO t (a) VALUES ".data
    ("(1)".data :: "(2)".data :: "(3)".data :: []) 28 (by decide) (by decide)).2.2.2.1
